import Mathlib

/-!
Verification of the line-stitch dual quad tree core.

This file shallowly embeds `src/lib.rs` (the `PathSegment` entity) and
`src/dual_quad_tree.rs` (the `DualQuadTree` structure with its `starts`,
`ends` and `ambiguity_points` indices and the endpoint matching policy).

Modelling conventions:
* `f32` coordinates are modelled by `ℚ`; no claim under consideration
  depends on floating-point rounding.
* The external `aabb_quadtree` spatial index (an external crate, treated
  as a black box by the repository) is modelled from its interface
  contract: insert-with-generated-handle, remove-by-handle, and
  box-intersection range query, realised as a list of
  (handle, key, box) entries with a fresh-handle counter.
* Rust panics (`\x2eunwrap()` on `None`, a failed `assert!`) are modelled by
  `Except.error ()` / `none` results so that partiality is visible.
* The memoised `length` / `length_2` caches of `PathSegment` are pure
  caches of derived data and no claim mentions them; they are omitted.
-/

/-- Rational addition computed on numerators and denominators. Mathlib's
`+` on `ℚ` is irreducible, which blocks kernel evaluation of concrete
witnesses, so the embedding uses this evaluable form; `qadd_eq` proves it
equal to `+`. -/
def qadd (a b : ℚ) : ℚ := mkRat (a.num * b.den + b.num * a.den) (a.den * b.den)

/-- Rational subtraction in evaluable form; `qsub_eq` proves it equal
to `-`. -/
def qsub (a b : ℚ) : ℚ := mkRat (a.num * b.den - b.num * a.den) (a.den * b.den)

/-- Rational multiplication in evaluable form; `qmul_eq` proves it equal
to `*`. -/
def qmul (a b : ℚ) : ℚ := mkRat (a.num * b.num) (a.den * b.den)

/-- A 2D point with rational coordinates (models `euclid::TypedPoint2D<f32, S>`). -/
structure Pt where
  x : ℚ
  y : ℚ
deriving DecidableEq, Repr

/-- An axis-aligned box given by its low and high corners
(models `euclid::TypedRect<f32, S>` as consumed through the spatial-index
interface). -/
structure Box where
  lox : ℚ
  loy : ℚ
  hix : ℚ
  hiy : ℚ
deriving DecidableEq, Repr

/-- The degenerate box of a point (models `point.aabb()`). -/
def Pt.aabb (p : Pt) : Box := ⟨p.x, p.y, p.x, p.y⟩

/-- Inflate a box by `dx`/`dy` on each side (models `TypedRect::inflate`). -/
def Box.inflate (b : Box) (dx dy : ℚ) : Box :=
  ⟨qsub b.lox dx, qsub b.loy dy, qadd b.hix dx, qadd b.hiy dy⟩

/-- Box intersection test used by the spatial index's range query
(closed-interval overlap in each axis). -/
def Box.intersects (a b : Box) : Bool :=
  decide (a.lox ≤ b.hix) && decide (b.lox ≤ a.hix) &&
  decide (a.loy ≤ b.hiy) && decide (b.loy ≤ a.hiy)

/-- Modelled from the spec: `util::centered_with_radius` and the rectangle
containment test used by `PathSegment::new` live in `src/util.rs`, which is
not part of the provided sources. The spec states that a path is closed
when "a caller supplies a path whose last point lies within `epsilon` of
its first point"; we model the box centered at `first` with radius
`epsilon` and closed containment of `last`. -/
def closeEnough (first last : Pt) (epsilon : ℚ) : Bool :=
  decide (qsub first.x epsilon ≤ last.x) && decide (last.x ≤ qadd first.x epsilon) &&
  decide (qsub first.y epsilon ≤ last.y) && decide (last.y ≤ qadd first.y epsilon)

/-- A path segment: the ordered point list and the closed flag
(models `PathSegment<S>` from `src/lib.rs`; the `length` / `length_2`
memoisation cells are derived-data caches not touched by any claim). -/
structure PathSegment where
  path : List Pt
  closed : Bool
deriving DecidableEq, Repr

/-- Models `PathSegment::new`. The Rust code asserts `path.len() > 1`
(a failed assertion is the `none` result), detects closedness by testing
whether the last point lies in the epsilon-box around the first, and pops
the duplicate last point when closed. -/
def PathSegment.new (path : List Pt) (epsilon : ℚ) : Option PathSegment :=
  match path with
  | first :: second :: rest =>
    let p := first :: second :: rest
    let last := p.getLast (List.cons_ne_nil _ _)
    let closed := closeEnough first last epsilon
    some { path := if closed then p.dropLast else p, closed := closed }
  | _ => none

/-- Models the free function `reverse_and_return` of `src/dual_quad_tree.rs`. -/
def reverseAndReturn (v : PathSegment) : PathSegment :=
  { v with path := v.path.reverse }

/-- An opaque segment identifier (models `DqtId(u32)`). -/
structure DqtId where
  val : ℕ
deriving DecidableEq, Repr

/-- The external spatial index, modelled from the spec's interface contract
(§6): `insert(key, box) -> handle`, `remove(handle)`, and
`query(box) -> all entries whose box intersects the query box`. Entries
are (handle, key, box) triples; handles are generated by a counter. -/
structure QuadTree (α : Type) where
  nextHandle : ℕ
  entries : List (ℕ × α × Box)
deriving DecidableEq, Repr

/-- The empty spatial index (models `QuadTree::default(aabb)`; the bounding
box only constrains the external implementation and is not part of the
interface contract, so it is dropped). -/
def QuadTree.empty {α : Type} : QuadTree α := ⟨0, []⟩

/-- Models `insert_with_box`: insert a key with an explicit box, returning
the generated handle. -/
def QuadTree.insertWithBox {α : Type} (t : QuadTree α) (k : α) (b : Box) :
    ℕ × QuadTree α :=
  (t.nextHandle, ⟨t.nextHandle + 1, (t.nextHandle, k, b) :: t.entries⟩)

/-- Models `remove(handle)`. -/
def QuadTree.removeHandle {α : Type} (t : QuadTree α) (h : ℕ) : QuadTree α :=
  ⟨t.nextHandle, t.entries.filter (fun e => decide (e.1 ≠ h))⟩

/-- Models `query(box)`: all entries whose box intersects the query box. -/
def QuadTree.query {α : Type} (t : QuadTree α) (b : Box) : List (ℕ × α × Box) :=
  t.entries.filter (fun e => e.2.2.intersects b)

/-- The dual quad tree state (models `DualQuadTree<S>`): the identifier
counter, the map from identifier to (segment, start handle, end handle)
— an association list standing for the `FnvHashMap` — and the three
spatial indices. -/
structure DualQuadTree where
  id : ℕ
  idToSegment : List (DqtId × PathSegment × ℕ × ℕ)
  starts : QuadTree DqtId
  ends : QuadTree DqtId
  ambiguityPoints : QuadTree Pt
deriving DecidableEq, Repr

/-- Models `DualQuadTree::new` (the construction-time bounding box is an
argument of the external index only, see `QuadTree.empty`). -/
def DualQuadTree.new : DualQuadTree :=
  ⟨0, [], QuadTree.empty, QuadTree.empty, QuadTree.empty⟩

/-- Association-list lookup standing for `id_to_segment.get`. -/
def lookupSeg (l : List (DqtId × PathSegment × ℕ × ℕ)) (id : DqtId) :
    Option (PathSegment × ℕ × ℕ) :=
  match l with
  | [] => none
  | (k, v) :: rest => if k = id then some v else lookupSeg rest id

/-- Association-list key removal standing for `id_to_segment.remove`. -/
def removeKey (l : List (DqtId × PathSegment × ℕ × ℕ)) (id : DqtId) :
    List (DqtId × PathSegment × ℕ × ℕ) :=
  l.filter (fun r => decide (r.1 ≠ id))

/-- Models `DualQuadTree::insert`: allocate a fresh identifier, index the
segment's first and last point in `starts` / `ends`, and record the
triple. The Rust code unwraps `segment.first()` / `segment.last()`,
which aborts on an empty point list; that abort is the `none` result. -/
def DualQuadTree.insert (t : DualQuadTree) (segment : PathSegment) :
    Option DualQuadTree :=
  match segment.path with
  | [] => none
  | first :: rest =>
    let id : DqtId := ⟨t.id⟩
    let start := first
    let stop := (first :: rest).getLast (List.cons_ne_nil _ _)
    let s := t.starts.insertWithBox id start.aabb
    let e := t.ends.insertWithBox id stop.aabb
    some { t with
      id := t.id + 1,
      idToSegment := (id, segment, s.1, e.1) :: t.idToSegment,
      starts := s.2,
      ends := e.2 }

/-- Models `DualQuadTree::remove`: the Rust code unwraps the map lookup, so
an absent identifier is a panic (`Except.error ()`); otherwise both index
entries and the map entry are removed and the segment is returned. -/
def DualQuadTree.remove (t : DualQuadTree) (dqtId : DqtId) :
    Except Unit (PathSegment × DualQuadTree) :=
  match lookupSeg t.idToSegment dqtId with
  | none => Except.error ()
  | some (segment, startId, endId) =>
    Except.ok (segment, { t with
      idToSegment := removeKey t.idToSegment dqtId,
      starts := t.starts.removeHandle startId,
      ends := t.ends.removeHandle endId })

/-- Models `DualQuadTree::pop`: remove and return the first segment in the
map's iteration order, or `none` when empty. The outer `Option` layer is
the panic monad of the inner `remove` (`none` would be a panic; the inner
`Option` is the Rust return value). -/
def DualQuadTree.pop (t : DualQuadTree) :
    Option (Option (PathSegment × DualQuadTree)) :=
  match t.idToSegment with
  | [] => some none
  | (id, _) :: _ =>
    match t.remove id with
    | Except.ok r => some (some r)
    | Except.error _ => none

/-- Models `has_forward_neighbor`: some other segment's end lies within the
box of half-width `2 * epsilon` around `point`. -/
def DualQuadTree.hasForwardNeighbor (t : DualQuadTree) (id : DqtId) (point : Pt)
    (epsilon : ℚ) : Bool :=
  let queryAabb := point.aabb.inflate (qmul epsilon 2) (qmul epsilon 2)
  ((t.ends.query queryAabb).filter (fun e => decide (e.2.1 ≠ id))).length ≠ 0

/-- Models `has_backward_neighbor`: symmetric probe against `starts`. -/
def DualQuadTree.hasBackwardNeighbor (t : DualQuadTree) (id : DqtId) (point : Pt)
    (epsilon : ℚ) : Bool :=
  let queryAabb := point.aabb.inflate (qmul epsilon 2) (qmul epsilon 2)
  ((t.starts.query queryAabb).filter (fun e => decide (e.2.1 ≠ id))).length ≠ 0

/-- The per-index classification loop of `query_impl`: with ambiguity
allowed the first hit is returned; otherwise a second hit is the
ambiguity error `Except.error ()`. -/
def queryLoop (allowAmbiguous : Bool) :
    List DqtId → Option DqtId → Except Unit (Option DqtId)
  | [], out => Except.ok out
  | id :: rest, out =>
    if allowAmbiguous then Except.ok (some id)
    else if out.isSome then Except.error ()
    else queryLoop allowAmbiguous rest (some id)

/-- Models `query_impl`: short-circuit on a recorded ambiguity point, then
classify the `starts` and `ends` neighbourhoods independently. -/
def DualQuadTree.queryImpl (t : DualQuadTree) (point : Pt) (epsilon : ℚ)
    (allowAmbiguous : Bool) :
    Except Unit (Option DqtId) × Except Unit (Option DqtId) :=
  let queryAabb := point.aabb.inflate epsilon epsilon
  if (t.ambiguityPoints.query queryAabb).length > 0 then
    (Except.ok none, Except.ok none)
  else
    (queryLoop allowAmbiguous
      ((t.starts.query queryAabb).map (fun e => e.2.1)) none,
     queryLoop allowAmbiguous
      ((t.ends.query queryAabb).map (fun e => e.2.1)) none)

/-- The state with `point` recorded as an ambiguity point
(models `self.ambiguity_points.insert(point)`). -/
def DualQuadTree.markAmbiguous (t : DualQuadTree) (point : Pt) : DualQuadTree :=
  { t with ambiguityPoints := (t.ambiguityPoints.insertWithBox point point.aabb).2 }

/-- The `self.remove(a)` consumption step of `query_direction`: the
returned segment together with the updated state; `none` models the
panic of the unwrap inside `remove` (unreachable from well-formed
states). -/
def DualQuadTree.consume (t : DualQuadTree) (a : DqtId) :
    Option (Option PathSegment × DualQuadTree) :=
  match t.remove a with
  | Except.ok (seg, t') => some (some seg, t')
  | Except.error _ => none

/-- The `self.remove(b).map(reverse_and_return)` consumption step of
`query_direction`. -/
def DualQuadTree.consumeRev (t : DualQuadTree) (b : DqtId) :
    Option (Option PathSegment × DualQuadTree) :=
  match t.remove b with
  | Except.ok (seg, t') => some (some (reverseAndReturn seg), t')
  | Except.error _ => none

/-- Models `query_direction`. The returned pair is (result, new state); the
outer `Option` layer is the panic monad of the consumption steps. The
match arms mirror the Rust `match` arm for arm, wildcards included. -/
def DualQuadTree.queryDirection (t : DualQuadTree) (shouldSwap : Bool)
    (point : Pt) (epsilon : ℚ) (onlyStarts allowAmbiguous : Bool) :
    Option (Option PathSegment × DualQuadTree) :=
  let se := t.queryImpl point epsilon allowAmbiguous
  let start := if shouldSwap then se.2 else se.1
  let stop := if shouldSwap then se.1 else se.2
  if onlyStarts then
    match start, stop with
    | Except.ok (some _), Except.ok (some _) => some (none, t.markAmbiguous point)
    | Except.ok (some a), _ => t.consume a
    | Except.ok none, _ => some (none, t)
    | Except.error _, _ => some (none, t.markAmbiguous point)
  else
    match start, stop, allowAmbiguous with
    | Except.ok none, Except.ok none, _ => some (none, t)
    | Except.ok (some a), Except.ok (some _), true => t.consume a
    | Except.ok (some _), Except.ok (some _), false =>
      some (none, t.markAmbiguous point)
    | Except.ok (some a), Except.ok none, _ => t.consume a
    | Except.ok none, Except.ok (some b), _ => t.consumeRev b
    | Except.error _, _, _ => some (none, t.markAmbiguous point)
    | _, Except.error _, _ => some (none, t.markAmbiguous point)

/-- Models `query_forward`. -/
def DualQuadTree.queryForward (t : DualQuadTree) (point : Pt) (epsilon : ℚ)
    (onlyStarts allowAmbiguous : Bool) :
    Option (Option PathSegment × DualQuadTree) :=
  t.queryDirection false point epsilon onlyStarts allowAmbiguous

/-- Models `query_backward`. -/
def DualQuadTree.queryBackward (t : DualQuadTree) (point : Pt) (epsilon : ℚ)
    (onlyStarts allowAmbiguous : Bool) :
    Option (Option PathSegment × DualQuadTree) :=
  t.queryDirection true point epsilon onlyStarts allowAmbiguous

/-- An operation of the Dual Quad Tree interface; used to speak about
arbitrary later interaction sequences with the structure. -/
inductive Op where
  | insert (seg : PathSegment)
  | remove (id : DqtId)
  | pop
  | queryForward (point : Pt) (epsilon : ℚ) (onlyStarts allowAmbiguous : Bool)
  | queryBackward (point : Pt) (epsilon : ℚ) (onlyStarts allowAmbiguous : Bool)
deriving Repr

/-- The state reached by one operation; `none` when the operation aborts. -/
def applyOp (t : DualQuadTree) : Op → Option DualQuadTree
  | Op.insert seg => t.insert seg
  | Op.remove id =>
    match t.remove id with
    | Except.ok r => some r.2
    | Except.error _ => none
  | Op.pop =>
    match t.pop with
    | some none => some t
    | some (some r) => some r.2
    | none => none
  | Op.queryForward p e os amb => (t.queryForward p e os amb).map (fun r => r.2)
  | Op.queryBackward p e os amb => (t.queryBackward p e os amb).map (fun r => r.2)

/-- Run a sequence of operations, stopping at an abort. -/
def run (t : DualQuadTree) : List Op → Option DualQuadTree
  | [] => some t
  | op :: ops =>
    match applyOp t op with
    | some t' => run t' ops
    | none => none

/-- The states reachable from a freshly constructed tree through the public
interface. -/
inductive Reachable : DualQuadTree → Prop where
  | new : Reachable DualQuadTree.new
  | step {t t' : DualQuadTree} {op : Op} :
      Reachable t → applyOp t op = some t' → Reachable t'

/-- Number of live entries of the `starts` index keyed by `id`. -/
def startsCount (t : DualQuadTree) (id : DqtId) : ℕ :=
  (t.starts.entries.filter (fun e => decide (e.2.1 = id))).length

/-- Number of live entries of the `ends` index keyed by `id`. -/
def endsCount (t : DualQuadTree) (id : DqtId) : ℕ :=
  (t.ends.entries.filter (fun e => decide (e.2.1 = id))).length

/-- The bookkeeping invariant of the dual quad tree: identifiers and
handles are bounded by their counters and pairwise distinct, and the
(handle, key) rosters of the `starts` / `ends` indices coincide with the
(start handle, identifier) / (end handle, identifier) columns of the
segment map. -/
def WellFormed (t : DualQuadTree) : Prop :=
  (∀ r ∈ t.idToSegment, r.1.val < t.id) ∧
  (t.idToSegment.map (fun r => r.1)).Nodup ∧
  (t.idToSegment.map (fun r => r.2.2.1)).Nodup ∧
  (t.idToSegment.map (fun r => r.2.2.2)).Nodup ∧
  (∀ r ∈ t.idToSegment, r.2.2.1 < t.starts.nextHandle) ∧
  (∀ r ∈ t.idToSegment, r.2.2.2 < t.ends.nextHandle) ∧
  t.starts.entries.map (fun e => (e.1, e.2.1)) =
    t.idToSegment.map (fun r => (r.2.2.1, r.1)) ∧
  t.ends.entries.map (fun e => (e.1, e.2.1)) =
    t.idToSegment.map (fun r => (r.2.2.2, r.1))

/-- Decidable equality for `Except`, needed to evaluate concrete
classification outcomes. -/
instance {ε α : Type} [DecidableEq ε] [DecidableEq α] : DecidableEq (Except ε α) :=
  fun x y =>
    match x, y with
    | Except.ok a, Except.ok b =>
      if h : a = b then isTrue (by rw [h]) else isFalse (by simp [h])
    | Except.error a, Except.error b =>
      if h : a = b then isTrue (by rw [h]) else isFalse (by simp [h])
    | Except.ok _, Except.error _ => isFalse (by simp)
    | Except.error _, Except.ok _ => isFalse (by simp)

/-- Project a directional-query outcome to the returned point list
(outer layer: panic; middle layer: match / no match). -/
def resultPath (r : Option (Option PathSegment × DualQuadTree)) :
    Option (Option (List Pt)) :=
  r.map (fun x => x.1.map (fun s => s.path))

/-- Project a directional-query outcome to (was a segment returned,
number of recorded ambiguity points afterwards). -/
def summarize (r : Option (Option PathSegment × DualQuadTree)) :
    Option (Bool × ℕ) :=
  r.map (fun x => (x.1.isSome, x.2.ambiguityPoints.entries.length))

/-- Project a constructed segment to its stored point count. -/
def storedLen (o : Option PathSegment) : Option ℕ :=
  o.map (fun s => s.path.length)

/-- Project a removal outcome to (returned segment, map size, starts size,
ends size). -/
def removeSummary (r : Except Unit (PathSegment × DualQuadTree)) :
    Option (PathSegment × ℕ × ℕ × ℕ) :=
  r.toOption.map (fun x => (x.1, x.2.idToSegment.length,
    x.2.starts.entries.length, x.2.ends.entries.length))

/-- Example segment from `(0,0)` to `(1,0)`. -/
def exA : PathSegment := ⟨[⟨0, 0⟩, ⟨1, 0⟩], false⟩

/-- Example segment from `(1,0)` to `(2,0)`: its start sits at `(1,0)`. -/
def exB : PathSegment := ⟨[⟨1, 0⟩, ⟨2, 0⟩], false⟩

/-- Example segment from `(-1,0)` to `(1,0)`: its end sits at `(1,0)`. -/
def exD : PathSegment := ⟨[⟨-1, 0⟩, ⟨1, 0⟩], false⟩

/-- Example segment from `(-1,1)` to `(1,0)`: its end sits at `(1,0)`. -/
def exE : PathSegment := ⟨[⟨-1, 1⟩, ⟨1, 0⟩], false⟩

/-- The tree holding only `exA` (identifier 0). -/
def c1State : DualQuadTree :=
  (DualQuadTree.new.insert exA).getD DualQuadTree.new

/-- The tree holding `exB` (id 0), `exD` (id 1) and `exE` (id 2): near
`(1,0)` the `starts` index has one hit and the `ends` index has two. -/
def c2State : DualQuadTree :=
  (((DualQuadTree.new.insert exB).bind (fun t => t.insert exD)).bind
    (fun t => t.insert exE)).getD DualQuadTree.new

/-- A tree whose only content is an ambiguity point at `(1,0)`. -/
def c3State : DualQuadTree := DualQuadTree.new.markAmbiguous ⟨1, 0⟩

/-- The state after a permissive general-mode forward query on `c1State`
consumes its only segment. -/
def c10After : DualQuadTree :=
  ((c1State.queryForward ⟨0, 0⟩ 1 false true).getD (none, c1State)).2

/-- The state after inserting `exB` into `c3State` and running one
further (short-circuited) query near the ambiguity point. -/
def c3After : DualQuadTree :=
  (run c3State [Op.insert exB, Op.queryBackward ⟨1, 0⟩ 1 false true]).getD c3State

example :
    PathSegment.new [⟨0, 0⟩, ⟨1, 0⟩] (mkRat 1 100) =
      some { path := [⟨0, 0⟩, ⟨1, 0⟩], closed := false } := by decide

example :
    PathSegment.new [⟨0, 0⟩, ⟨1, 0⟩, ⟨0, 0⟩] (mkRat 1 100) =
      some { path := [⟨0, 0⟩, ⟨1, 0⟩], closed := true } := by decide

example :
    summarize (c2State.queryForward ⟨1, 0⟩ (mkRat 1 4) true false) =
      some (true, 0) := by decide

example :
    c1State.queryImpl ⟨1, 0⟩ (mkRat 1 4) false =
      (Except.ok none, Except.ok (some ⟨0⟩)) := by decide

lemma lookupSeg_head (id : DqtId) (v : PathSegment × ℕ × ℕ)
    (rest : List (DqtId × PathSegment × ℕ × ℕ)) :
    lookupSeg ((id, v) :: rest) id = some v := by
  simp [lookupSeg]

lemma remove_ambiguityPoints {t t' : DualQuadTree} {id : DqtId}
    {seg : PathSegment} (h : t.remove id = Except.ok (seg, t')) :
    t'.ambiguityPoints = t.ambiguityPoints := by
  rw [DualQuadTree.remove] at h
  rcases hl : lookupSeg t.idToSegment id with _ | ⟨⟨s, sh, eh⟩⟩ <;> rw [hl] at h
  · exact absurd h (by simp)
  · simp only [Except.ok.injEq, Prod.mk.injEq] at h
    rw [← h.2]

lemma queryLoop_true_ok (l : List DqtId) (out : Option DqtId) :
    ∃ o, queryLoop true l out = Except.ok o := by
  cases l <;> simp [queryLoop]

lemma queryImpl_ok_of_allow (t : DualQuadTree) (p : Pt) (eps : ℚ) :
    ∃ o1 o2, t.queryImpl p eps true = (Except.ok o1, Except.ok o2) := by
  rw [DualQuadTree.queryImpl]
  split
  · exact ⟨none, none, rfl⟩
  · obtain ⟨o1, h1⟩ := queryLoop_true_ok
      ((t.starts.query (p.aabb.inflate eps eps)).map (fun e => e.2.1)) none
    obtain ⟨o2, h2⟩ := queryLoop_true_ok
      ((t.ends.query (p.aabb.inflate eps eps)).map (fun e => e.2.1)) none
    exact ⟨o1, o2, by rw [h1, h2]⟩

/-- Claim C4, counterexample: constructing a segment from the two
coincident points `(0,0), (0,0)` with `epsilon = 1` succeeds and stores a
single point, so the stored point list does not always have length at
least 2. -/
theorem c4_counterexample :
    storedLen (PathSegment.new [⟨0, 0⟩, ⟨0, 0⟩] 1) = some 1 ∧ 1 < 2 := by
  constructor
  · decide
  · decide

/-- Claim C4, amended: construction with fewer than 2 input points fails
as a precondition violation; a successful construction stores at least
one point — exactly one fewer than the input count when the closed flag
was detected (so a 2-point closed input stores a single point, below the
claimed bound of 2), and exactly the input count otherwise. -/
theorem c4_amended (path : List Pt) (epsilon : ℚ) :
    (path.length < 2 → PathSegment.new path epsilon = none) ∧
    (∀ seg, PathSegment.new path epsilon = some seg →
      1 ≤ seg.path.length ∧
      (seg.closed = true → seg.path.length = path.length - 1) ∧
      (seg.closed = false → seg.path.length = path.length)) := by
  constructor
  · intro h
    match path with
    | [] => rfl
    | [a] => rfl
    | a :: b :: rest => exact absurd h (by simp)
  · intro seg hseg
    match path with
    | [] => exact absurd hseg (by simp [PathSegment.new])
    | [a] => exact absurd hseg (by simp [PathSegment.new])
    | a :: b :: rest =>
      simp only [PathSegment.new, Option.some.injEq] at hseg
      cases hc : closeEnough a ((a :: b :: rest).getLast (List.cons_ne_nil _ _))
          epsilon <;>
        rw [hc] at hseg <;> subst hseg <;> simp [List.length_dropLast]

/-- Claim C4, witness for the amended claim at concrete inputs. -/
theorem c4_amended_witness :
    PathSegment.new [Pt.mk 0 0] 1 = none ∧
    storedLen (PathSegment.new [⟨0, 0⟩, ⟨0, 0⟩, ⟨5, 0⟩, ⟨0, 0⟩] 1) = some 3 := by
  constructor
  · exact (c4_amended [Pt.mk 0 0] 1).1 (by decide)
  · have h := ((c4_amended [⟨0, 0⟩, ⟨0, 0⟩, ⟨5, 0⟩, ⟨0, 0⟩] 1).2
      ⟨[⟨0, 0⟩, ⟨0, 0⟩, ⟨5, 0⟩], true⟩ (by decide)).2.1 rfl
    rw [storedLen, show PathSegment.new [⟨0, 0⟩, ⟨0, 0⟩, ⟨5, 0⟩, ⟨0, 0⟩] 1 =
      some ⟨[⟨0, 0⟩, ⟨0, 0⟩, ⟨5, 0⟩], true⟩ from by decide]
    rw [Option.map_some']
    rw [h]
    rfl

/-- Claim C5, counterexample: removing identifier 0 from the empty tree is
the panic of the unwrapped map lookup (`Except.error ()` in the model),
not a graceful "not found" return value. -/
theorem c5_counterexample :
    DualQuadTree.new.remove ⟨0⟩ = Except.error () := by decide

/-- Claim C5, amended: `remove(id)` on an identifier that is not present
aborts (the Rust code unwraps the map lookup, a fatal programming error
per the spec's §7), rather than returning a "not found" result; on a
present identifier it removes both index entries and the map entry and
returns ownership of the segment. -/
theorem c5_amended (t : DualQuadTree) (id : DqtId) :
    (lookupSeg t.idToSegment id = none → t.remove id = Except.error ()) ∧
    (∀ seg sh eh, lookupSeg t.idToSegment id = some (seg, sh, eh) →
      t.remove id = Except.ok (seg, { t with
        idToSegment := removeKey t.idToSegment id,
        starts := t.starts.removeHandle sh,
        ends := t.ends.removeHandle eh })) := by
  constructor
  · intro h
    rw [DualQuadTree.remove, h]
  · intro seg sh eh h
    rw [DualQuadTree.remove, h]

/-- Claim C5, witness: on a tree holding one segment, removing its
identifier succeeds, and removing it from the empty tree aborts. -/
theorem c5_amended_witness :
    DualQuadTree.new.remove ⟨1⟩ = Except.error () ∧
    c1State.remove ⟨0⟩ = Except.ok (exA, { c1State with
      idToSegment := removeKey c1State.idToSegment ⟨0⟩,
      starts := c1State.starts.removeHandle 0,
      ends := c1State.ends.removeHandle 0 }) := by
  constructor
  · exact (c5_amended DualQuadTree.new ⟨1⟩).1 (by decide)
  · exact (c5_amended c1State ⟨0⟩).2 exA 0 0 (by decide)

lemma consume_ambiguityPoints {t t' : DualQuadTree} {a : DqtId}
    {res : Option PathSegment} (h : t.consume a = some (res, t')) :
    t'.ambiguityPoints = t.ambiguityPoints := by
  rw [DualQuadTree.consume] at h
  rcases hr : t.remove a with e | ⟨seg, t2⟩ <;> rw [hr] at h
  · exact absurd h (by simp)
  · simp only [Option.some.injEq, Prod.mk.injEq] at h
    rw [← h.2]
    exact remove_ambiguityPoints hr

lemma consumeRev_ambiguityPoints {t t' : DualQuadTree} {b : DqtId}
    {res : Option PathSegment} (h : t.consumeRev b = some (res, t')) :
    t'.ambiguityPoints = t.ambiguityPoints := by
  rw [DualQuadTree.consumeRev] at h
  rcases hr : t.remove b with e | ⟨seg, t2⟩ <;> rw [hr] at h
  · exact absurd h (by simp)
  · simp only [Option.some.injEq, Prod.mk.injEq] at h
    rw [← h.2]
    exact remove_ambiguityPoints hr

lemma queryDirection_allow_amb (t : DualQuadTree) (swap : Bool) (p : Pt)
    (eps : ℚ) (res : Option PathSegment) (t' : DualQuadTree)
    (h : t.queryDirection swap p eps false true = some (res, t')) :
    t'.ambiguityPoints = t.ambiguityPoints := by
  obtain ⟨o1, o2, hq⟩ := queryImpl_ok_of_allow t p eps
  rw [DualQuadTree.queryDirection.eq_def, hq] at h
  cases swap <;> rcases o1 with _ | a <;> rcases o2 with _ | b <;>
    simp only [Bool.false_eq_true, if_false, if_true, reduceIte] at h <;>
    (first
      | exact consume_ambiguityPoints h
      | exact consumeRev_ambiguityPoints h
      | (simp only [Option.some.injEq, Prod.mk.injEq] at h; rw [← h.2]))

/-- Claim C10 (implicit): in general mode with ambiguity permitted
(`only_starts = false`, `allow_ambiguous = true`), neither directional
query ever records an ambiguity point: whenever the call returns
normally, the ambiguity index is left unchanged. -/
theorem c10_no_ambiguity_in_permissive_mode (t : DualQuadTree) (p : Pt)
    (eps : ℚ) (res : Option PathSegment) (t' : DualQuadTree) :
    (t.queryForward p eps false true = some (res, t') →
      t'.ambiguityPoints = t.ambiguityPoints) ∧
    (t.queryBackward p eps false true = some (res, t') →
      t'.ambiguityPoints = t.ambiguityPoints) :=
  ⟨fun h => queryDirection_allow_amb t false p eps res t' h,
   fun h => queryDirection_allow_amb t true p eps res t' h⟩

/-- Claim C10, witness: a permissive general-mode query on the
one-segment tree consumes the segment and records nothing. -/
theorem c10_witness :
    c10After.ambiguityPoints = c1State.ambiguityPoints := by
  have h : c1State.queryForward ⟨0, 0⟩ 1 false true = some (some exA, c10After) := by
    decide
  exact (c10_no_ambiguity_in_permissive_mode c1State ⟨0, 0⟩ 1 (some exA) c10After).1 h

lemma consume_of_lookup {t : DualQuadTree} {a : DqtId} {seg : PathSegment}
    {sh eh : ℕ} (hlook : lookupSeg t.idToSegment a = some (seg, sh, eh)) :
    t.consume a = some (some seg, { t with
      idToSegment := removeKey t.idToSegment a,
      starts := t.starts.removeHandle sh,
      ends := t.ends.removeHandle eh }) := by
  rw [DualQuadTree.consume.eq_def, DualQuadTree.remove.eq_def, hlook]

/-- Claim C1, counterexample: on the tree holding only the segment
`(0,0) → (1,0)`, a backward query at `(1,0)` matches the `ends` index
(the classification is: starts `None`, ends `Some 0`) and returns the
segment in its stored point order `[(0,0), (1,0)]`, which is not the
reverse of the stored order. -/
theorem c1_counterexample :
    c1State.queryImpl ⟨1, 0⟩ (mkRat 1 4) false =
      (Except.ok none, Except.ok (some ⟨0⟩)) ∧
    resultPath (c1State.queryBackward ⟨1, 0⟩ (mkRat 1 4) false false) =
      some (some [⟨0, 0⟩, ⟨1, 0⟩]) ∧
    [Pt.mk 0 0, Pt.mk 1 0].reverse ≠ [Pt.mk 0 0, Pt.mk 1 0] :=
  ⟨by decide, by decide, by decide⟩

/-- Claim C1, amended: `query_backward` on a matched `ends` entry (starts
classified `None`, ends classified `Some a`) removes the matched segment
and returns it in its stored point order; the reversal is applied by
`query_backward` to matched `starts` entries (and by `query_forward` to
matched `ends` entries) instead. -/
theorem c1_amended (t : DualQuadTree) (p : Pt) (eps : ℚ) (os amb : Bool)
    (a : DqtId) (seg : PathSegment) (sh eh : ℕ)
    (himpl : t.queryImpl p eps amb = (Except.ok none, Except.ok (some a)))
    (hlook : lookupSeg t.idToSegment a = some (seg, sh, eh)) :
    t.queryBackward p eps os amb = some (some seg, { t with
      idToSegment := removeKey t.idToSegment a,
      starts := t.starts.removeHandle sh,
      ends := t.ends.removeHandle eh }) ∧
    (t.queryForward p eps false amb).map (fun r => r.1) =
      some (some (reverseAndReturn seg)) := by
  refine ⟨?_, ?_⟩
  · rw [DualQuadTree.queryBackward, DualQuadTree.queryDirection.eq_def, himpl]
    cases os <;>
      simp only [Bool.false_eq_true, if_false, if_true, reduceIte] <;>
      rw [consume_of_lookup hlook]
  · rw [DualQuadTree.queryForward, DualQuadTree.queryDirection.eq_def, himpl]
    simp only [Bool.false_eq_true, if_false, if_true, reduceIte]
    rw [DualQuadTree.consumeRev.eq_def, DualQuadTree.remove.eq_def, hlook]
    rfl

/-- Claim C1, witness for the amended claim: the backward query on
`c1State` returns the matched ends entry in stored order, and the forward
query returns it reversed. -/
theorem c1_amended_witness :
    resultPath (c1State.queryBackward ⟨1, 0⟩ (mkRat 1 4) false false) =
      some (some [⟨0, 0⟩, ⟨1, 0⟩]) ∧
    resultPath (c1State.queryForward ⟨1, 0⟩ (mkRat 1 4) false false) =
      some (some [⟨1, 0⟩, ⟨0, 0⟩]) := by
  have h := c1_amended c1State ⟨1, 0⟩ (mkRat 1 4) false false ⟨0⟩ exA 0 0
    (by decide) (by decide)
  constructor
  · rw [resultPath, h.1]
    rfl
  · rw [resultPath]
    rw [show c1State.queryForward ⟨1, 0⟩ (mkRat 1 4) false false =
      ((c1State.queryForward ⟨1, 0⟩ (mkRat 1 4) false false).map
        (fun r => r.1)).bind (fun o =>
          (c1State.queryForward ⟨1, 0⟩ (mkRat 1 4) false false).map
            (fun r => (o, r.2))) from by decide, h.2]
    decide

/-- Claim C2, counterexample: in `c2State` the point `(1,0)` classifies as
starts `Some 0` and ends ambiguity-error, yet the starts-only forward
query (ambiguity not permitted) returns the starts match and records no
ambiguity point, instead of marking the point ambiguous and returning no
match. -/
theorem c2_counterexample :
    c2State.queryImpl ⟨1, 0⟩ (mkRat 1 4) false =
      (Except.ok (some ⟨0⟩), Except.error ()) ∧
    summarize (c2State.queryForward ⟨1, 0⟩ (mkRat 1 4) true false) =
      some (true, 0) :=
  ⟨by decide, by decide⟩

/-- Claim C2, amended: in general mode an ambiguity error from either
index marks the query point ambiguous and returns no match; in
starts-only mode this holds only for an error of the primary index
(starts for `query_forward`, ends for `query_backward`), while an
ambiguity error of the secondary index alone is ignored — the outcome is
then decided by the primary classification (no match for `None`,
consumption of the match for `Some`). -/
theorem c2_amended (t : DualQuadTree) (p : Pt) (eps : ℚ) (amb : Bool) :
    ((t.queryImpl p eps amb).1 = Except.error () ∨
     (t.queryImpl p eps amb).2 = Except.error () →
      t.queryForward p eps false amb = some (none, t.markAmbiguous p) ∧
      t.queryBackward p eps false amb = some (none, t.markAmbiguous p)) ∧
    ((t.queryImpl p eps amb).1 = Except.error () →
      t.queryForward p eps true amb = some (none, t.markAmbiguous p)) ∧
    ((t.queryImpl p eps amb).2 = Except.error () →
      t.queryBackward p eps true amb = some (none, t.markAmbiguous p)) ∧
    ((t.queryImpl p eps amb).1 = Except.ok none →
     (t.queryImpl p eps amb).2 = Except.error () →
      t.queryForward p eps true amb = some (none, t)) ∧
    (∀ a, (t.queryImpl p eps amb).1 = Except.ok (some a) →
     (t.queryImpl p eps amb).2 = Except.error () →
      t.queryForward p eps true amb = t.consume a) := by
  rcases hq : t.queryImpl p eps amb with ⟨s0, e0⟩
  refine ⟨?_, ?_, ?_, ?_, ?_⟩
  · intro h
    simp only [hq] at h
    constructor <;>
      [rw [DualQuadTree.queryForward, DualQuadTree.queryDirection.eq_def, hq];
       rw [DualQuadTree.queryBackward, DualQuadTree.queryDirection.eq_def, hq]] <;>
      simp only [Bool.false_eq_true, if_false, if_true, reduceIte] <;>
      rcases s0 with u1 | (_ | a) <;> rcases e0 with u2 | (_ | b) <;>
      (first
        | rfl
        | (cases amb <;> rfl)
        | (rcases h with h | h <;> exact absurd h (by simp)))
  · intro h
    simp only [hq] at h
    subst h
    rw [DualQuadTree.queryForward, DualQuadTree.queryDirection.eq_def, hq]
    rfl
  · intro h
    simp only [hq] at h
    subst h
    rw [DualQuadTree.queryBackward, DualQuadTree.queryDirection.eq_def, hq]
    rcases s0 with u1 | (_ | a) <;> rfl
  · intro h1 h2
    simp only [hq] at h1 h2
    subst h1; subst h2
    rw [DualQuadTree.queryForward, DualQuadTree.queryDirection.eq_def, hq]
    rfl
  · intro a h1 h2
    simp only [hq] at h1 h2
    subst h1; subst h2
    rw [DualQuadTree.queryForward, DualQuadTree.queryDirection.eq_def, hq]
    rfl

/-- Claim C2, witness for the amended claim at the `c2State`
configuration: the general-mode query marks the point, while the
starts-only query consumes the unique starts match. -/
theorem c2_amended_witness :
    c2State.queryForward ⟨1, 0⟩ (mkRat 1 4) false false =
      some (none, c2State.markAmbiguous ⟨1, 0⟩) ∧
    c2State.queryForward ⟨1, 0⟩ (mkRat 1 4) true false =
      c2State.consume ⟨0⟩ := by
  constructor
  · exact ((c2_amended c2State ⟨1, 0⟩ (mkRat 1 4) false).1
      (Or.inr (by decide))).1
  · exact (c2_amended c2State ⟨1, 0⟩ (mkRat 1 4) false).2.2.2.2 ⟨0⟩
      (by decide) (by decide)

lemma markAmbiguous_mem {t : DualQuadTree} {p : Pt} {e : ℕ × Pt × Box}
    (hmem : e ∈ t.ambiguityPoints.entries) :
    e ∈ (t.markAmbiguous p).ambiguityPoints.entries := by
  simp only [DualQuadTree.markAmbiguous, QuadTree.insertWithBox, List.mem_cons]
  exact Or.inr hmem

lemma queryDirection_amb_mono {t t' : DualQuadTree} {swap : Bool} {p : Pt}
    {eps : ℚ} {os amb : Bool} {res : Option PathSegment} {e : ℕ × Pt × Box}
    (h : t.queryDirection swap p eps os amb = some (res, t'))
    (hmem : e ∈ t.ambiguityPoints.entries) :
    e ∈ t'.ambiguityPoints.entries := by
  rcases hq : t.queryImpl p eps amb with ⟨s0, e0⟩
  rw [DualQuadTree.queryDirection.eq_def, hq] at h
  cases swap <;> cases os <;> cases amb <;>
    rcases s0 with u1 | (_ | a) <;> rcases e0 with u2 | (_ | b) <;>
    simp only [Bool.false_eq_true, Bool.true_eq_false, if_false, if_true,
      reduceIte] at h <;>
    (first
      | (rw [consume_ambiguityPoints h]; exact hmem)
      | (rw [consumeRev_ambiguityPoints h]; exact hmem)
      | (simp only [Option.some.injEq, Prod.mk.injEq] at h; rw [← h.2];
         exact hmem)
      | (simp only [Option.some.injEq, Prod.mk.injEq] at h; rw [← h.2];
         exact markAmbiguous_mem hmem))

lemma applyOp_amb_mono {t t' : DualQuadTree} {op : Op} {e : ℕ × Pt × Box}
    (h : applyOp t op = some t') (hmem : e ∈ t.ambiguityPoints.entries) :
    e ∈ t'.ambiguityPoints.entries := by
  cases op with
  | insert seg =>
    rw [applyOp, DualQuadTree.insert.eq_def] at h
    rcases hp : seg.path with _ | ⟨first, rest⟩ <;> rw [hp] at h
    · exact absurd h (by simp)
    · simp only [Option.some.injEq] at h
      rw [← h]
      exact hmem
  | remove id =>
    rw [applyOp] at h
    rcases hr : t.remove id with u | ⟨seg, t2⟩ <;> rw [hr] at h
    · exact absurd h (by simp)
    · simp only [Option.some.injEq] at h
      rw [← h, remove_ambiguityPoints hr]
      exact hmem
  | pop =>
    rw [applyOp, DualQuadTree.pop.eq_def] at h
    rcases hm : t.idToSegment with _ | ⟨⟨id0, v0⟩, rest⟩ <;> rw [hm] at h
    · simp only [Option.some.injEq] at h
      rw [← h]
      exact hmem
    · simp only [] at h
      rcases hr : t.remove id0 with u | ⟨seg, t2⟩ <;> rw [hr] at h
      · exact absurd h (by simp)
      · simp only [Option.some.injEq] at h
        rw [← h, remove_ambiguityPoints hr]
        exact hmem
  | queryForward q eps os amb =>
    rw [applyOp, DualQuadTree.queryForward] at h
    rcases hd : t.queryDirection false q eps os amb with _ | ⟨r, t2⟩ <;>
      rw [hd] at h
    · exact absurd h (by simp)
    · simp only [Option.map_some', Option.some.injEq] at h
      rw [← h]
      exact queryDirection_amb_mono hd hmem
  | queryBackward q eps os amb =>
    rw [applyOp, DualQuadTree.queryBackward] at h
    rcases hd : t.queryDirection true q eps os amb with _ | ⟨r, t2⟩ <;>
      rw [hd] at h
    · exact absurd h (by simp)
    · simp only [Option.map_some', Option.some.injEq] at h
      rw [← h]
      exact queryDirection_amb_mono hd hmem

lemma run_amb_mono {e : ℕ × Pt × Box} : ∀ (ops : List Op) (t t' : DualQuadTree),
    run t ops = some t' → e ∈ t.ambiguityPoints.entries →
    e ∈ t'.ambiguityPoints.entries
  | [], t, t', h, hm => by
    simp only [run, Option.some.injEq] at h
    rw [← h]
    exact hm
  | op :: ops, t, t', h, hm => by
    rw [run] at h
    rcases ha : applyOp t op with _ | t1 <;> rw [ha] at h
    · exact absurd h (by simp)
    · exact run_amb_mono ops t1 t' h (applyOp_amb_mono ha hm)

lemma queryImpl_shortCircuit {t : DualQuadTree} {p : Pt} {eps : ℚ}
    {amb : Bool} {e : ℕ × Pt × Box} (hmem : e ∈ t.ambiguityPoints.entries)
    (hint : e.2.2.intersects (p.aabb.inflate eps eps) = true) :
    t.queryImpl p eps amb = (Except.ok none, Except.ok none) := by
  rw [DualQuadTree.queryImpl]
  have hq : e ∈ t.ambiguityPoints.query (p.aabb.inflate eps eps) :=
    List.mem_filter.2 ⟨hmem, hint⟩
  rw [if_pos (List.length_pos.2 (List.ne_nil_of_mem hq))]

lemma queryDirection_noMatch {t : DualQuadTree} {swap : Bool} {p : Pt}
    {eps : ℚ} {os amb : Bool}
    (hq : t.queryImpl p eps amb = (Except.ok none, Except.ok none)) :
    t.queryDirection swap p eps os amb = some (none, t) := by
  rw [DualQuadTree.queryDirection.eq_def, hq]
  cases swap <;> cases os <;> cases amb <;> rfl

/-- Claim C3: once a point is recorded as an ambiguity point, it stays
recorded across any sequence of insertions, removals, pops and queries
(ambiguity points are never removed), and at any such later state both
directional queries whose epsilon-inflated tolerance box intersects the
recorded point return no match and leave the state unchanged. -/
theorem c3_ambiguity_permanent (t : DualQuadTree) (ops : List Op)
    (t' : DualQuadTree) (e : ℕ × Pt × Box)
    (hmem : e ∈ t.ambiguityPoints.entries) (hrun : run t ops = some t')
    (p : Pt) (eps : ℚ) (os amb : Bool)
    (hint : e.2.2.intersects (p.aabb.inflate eps eps) = true) :
    e ∈ t'.ambiguityPoints.entries ∧
    t'.queryForward p eps os amb = some (none, t') ∧
    t'.queryBackward p eps os amb = some (none, t') := by
  have hm' := run_amb_mono ops t t' hrun hmem
  have hq := @queryImpl_shortCircuit t' p eps amb e hm' hint
  exact ⟨hm', queryDirection_noMatch hq, queryDirection_noMatch hq⟩

/-- Claim C3, witness: the ambiguity point of `c3State` survives an
insertion and a query, and still forces "no match" afterwards. -/
theorem c3_witness :
    (0, Pt.mk 1 0, Pt.aabb ⟨1, 0⟩) ∈ c3After.ambiguityPoints.entries ∧
    c3After.queryForward ⟨1, 0⟩ 1 true false = some (none, c3After) := by
  have h := c3_ambiguity_permanent c3State
    [Op.insert exB, Op.queryBackward ⟨1, 0⟩ 1 false true] c3After
    (0, ⟨1, 0⟩, Pt.aabb ⟨1, 0⟩) (by decide) (by decide) ⟨1, 0⟩ 1 true false
    (by decide)
  exact ⟨h.1, h.2.1⟩

lemma lookupSeg_mem : ∀ {l : List (DqtId × PathSegment × ℕ × ℕ)} {id : DqtId}
    {v : PathSegment × ℕ × ℕ}, lookupSeg l id = some v → (id, v) ∈ l
  | [], id, v, h => by simp [lookupSeg] at h
  | (k, w) :: rest, id, v, h => by
    rw [lookupSeg] at h
    by_cases hk : k = id
    · rw [if_pos hk] at h
      simp only [Option.some.injEq] at h
      rw [hk, h]
      exact List.mem_cons_self _ _
    · rw [if_neg hk] at h
      exact List.mem_cons_of_mem _ (lookupSeg_mem h)

lemma lookupSeg_of_mem_keys : ∀ {l : List (DqtId × PathSegment × ℕ × ℕ)}
    {id : DqtId}, id ∈ l.map (fun r => r.1) → ∃ w, lookupSeg l id = some w
  | [], id, h => by simp at h
  | (k, w) :: rest, id, h => by
    rw [lookupSeg]
    by_cases hk : k = id
    · exact ⟨w, if_pos hk⟩
    · rw [if_neg hk]
      refine lookupSeg_of_mem_keys ?_
      simp only [List.map_cons, List.mem_cons] at h
      rcases h with h | h
      · exact absurd h.symm hk
      · exact h

lemma lookupSeg_removeKey_self (l : List (DqtId × PathSegment × ℕ × ℕ))
    (id : DqtId) : lookupSeg (removeKey l id) id = none := by
  induction l with
  | nil => rfl
  | cons x xs ih =>
    obtain ⟨k, w⟩ := x
    rw [removeKey, List.filter_cons]
    by_cases hx : k = id
    · rw [if_neg (by simp [hx])]
      exact ih
    · rw [if_pos (by simp [hx])]
      rw [lookupSeg, if_neg hx]
      exact ih

lemma map_filter_comm {α β : Type} (f : α → β) (p : β → Bool) :
    ∀ l : List α, (l.filter (fun x => p (f x))).map f = (l.map f).filter p
  | [] => rfl
  | x :: xs => by
    rw [List.filter_cons, List.map_cons, List.filter_cons]
    by_cases h : p (f x)
    · rw [if_pos h, if_pos h, List.map_cons, map_filter_comm f p xs]
    · rw [if_neg h, if_neg h, map_filter_comm f p xs]

lemma filter_length_map {α β : Type} (f : α → β) (p : β → Bool) (l : List α) :
    (l.filter (fun x => p (f x))).length = ((l.map f).filter p).length := by
  rw [← map_filter_comm f p l, List.length_map]

lemma filter_ne_fst_eq_filter_ne_snd {α β : Type} [DecidableEq α]
    [DecidableEq β] : ∀ {l : List (α × β)} {a : α} {b : β},
    (l.map Prod.fst).Nodup → (l.map Prod.snd).Nodup → (a, b) ∈ l →
    l.filter (fun q => decide (q.1 ≠ a)) = l.filter (fun q => decide (q.2 ≠ b))
  | [], a, b, _, _, hm => by simp at hm
  | x :: xs, a, b, h1, h2, hm => by
    simp only [List.map_cons, List.nodup_cons] at h1 h2
    rw [List.filter_cons, List.filter_cons]
    rcases List.mem_cons.1 hm with heq | hm'
    · have hx1 : x.1 = a := by rw [← heq]
      have hx2 : x.2 = b := by rw [← heq]
      rw [if_neg (by simp [hx1]), if_neg (by simp [hx2])]
      have ha : ∀ q ∈ xs, decide (q.1 ≠ a) = true := by
        intro q hq
        simp only [decide_eq_true_eq]
        intro hqa
        have hmem2 : q.1 ∈ xs.map Prod.fst := List.mem_map_of_mem Prod.fst hq
        rw [hqa, ← hx1] at hmem2
        exact h1.1 hmem2
      have hb : ∀ q ∈ xs, decide (q.2 ≠ b) = true := by
        intro q hq
        simp only [decide_eq_true_eq]
        intro hqb
        have hmem2 : q.2 ∈ xs.map Prod.snd := List.mem_map_of_mem Prod.snd hq
        rw [hqb, ← hx2] at hmem2
        exact h2.1 hmem2
      rw [List.filter_eq_self.2 ha, List.filter_eq_self.2 hb]
    · have hxa : x.1 ≠ a := by
        intro hx
        have hmem2 : a ∈ xs.map Prod.fst := by
          have := List.mem_map_of_mem Prod.fst hm'
          exact this
        rw [← hx] at hmem2
        exact h1.1 hmem2
      have hxb : x.2 ≠ b := by
        intro hx
        have hmem2 : b ∈ xs.map Prod.snd := List.mem_map_of_mem Prod.snd hm'
        rw [← hx] at hmem2
        exact h2.1 hmem2
      rw [if_pos (by simp [hxa]), if_pos (by simp [hxb]),
        filter_ne_fst_eq_filter_ne_snd h1.2 h2.2 hm']

lemma filter_snd_eq_length_one {α β : Type} [DecidableEq β] :
    ∀ {l : List (α × β)} {b : β}, (l.map Prod.snd).Nodup →
    b ∈ l.map Prod.snd →
    (l.filter (fun q => decide (q.2 = b))).length = 1
  | [], b, _, hm => by simp at hm
  | x :: xs, b, hn, hm => by
    simp only [List.map_cons, List.nodup_cons] at hn
    rw [List.filter_cons]
    rcases List.mem_cons.1 hm with heq | hm'
    · rw [if_pos (by simp [heq])]
      have hb : ∀ q ∈ xs, decide (q.2 = b) = false := by
        intro q hq
        simp only [decide_eq_false_iff_not]
        intro hqb
        have hmem2 : q.2 ∈ xs.map Prod.snd := List.mem_map_of_mem Prod.snd hq
        rw [hqb, heq] at hmem2
        exact hn.1 hmem2
      rw [List.length_cons, List.filter_eq_nil_iff.2 (fun q hq => by
        simp [hb q hq])]
      rfl
    · have hxb : decide (x.2 = b) = false := by
        simp only [decide_eq_false_iff_not]
        intro hx
        rw [← hx] at hm'
        exact hn.1 hm'
      rw [if_neg (by simp [hxb])]
      exact filter_snd_eq_length_one hn.2 hm'

lemma map_map_col {α β γ : Type} (f : α → β) (g : β → γ) (h : α → γ)
    (hc : ∀ x, g (f x) = h x) : ∀ l : List α, (l.map f).map g = l.map h
  | [] => rfl
  | x :: xs => by
    rw [List.map_cons, List.map_cons, List.map_cons, hc,
      map_map_col f g h hc xs]

lemma insert_eq {t : DualQuadTree} {seg : PathSegment} {first : Pt}
    {rest : List Pt} (hp : seg.path = first :: rest) :
    t.insert seg = some
      { id := t.id + 1,
        idToSegment :=
          (⟨t.id⟩, seg, t.starts.nextHandle, t.ends.nextHandle) ::
            t.idToSegment,
        starts := ⟨t.starts.nextHandle + 1,
          (t.starts.nextHandle, ⟨t.id⟩, first.aabb) :: t.starts.entries⟩,
        ends := ⟨t.ends.nextHandle + 1,
          (t.ends.nextHandle, ⟨t.id⟩,
            ((first :: rest).getLast (List.cons_ne_nil _ _)).aabb) ::
            t.ends.entries⟩,
        ambiguityPoints := t.ambiguityPoints } := by
  rw [DualQuadTree.insert.eq_def, hp]
  rfl

lemma remove_eq {t : DualQuadTree} {id : DqtId} {sg : PathSegment} {sh eh : ℕ}
    (hl : lookupSeg t.idToSegment id = some (sg, sh, eh)) :
    t.remove id = Except.ok (sg, { t with
      idToSegment := removeKey t.idToSegment id,
      starts := t.starts.removeHandle sh,
      ends := t.ends.removeHandle eh }) := by
  rw [DualQuadTree.remove.eq_def, hl]

lemma wf_new : WellFormed DualQuadTree.new := by
  refine ⟨?_, ?_, ?_, ?_, ?_, ?_, ?_, ?_⟩ <;> simp [DualQuadTree.new, QuadTree.empty]

lemma wf_insert {t t' : DualQuadTree} {seg : PathSegment}
    (hwf : WellFormed t) (h : t.insert seg = some t') : WellFormed t' := by
  obtain ⟨h1, h2, h3, h4, h5, h6, h7, h8⟩ := hwf
  rcases hp : seg.path with _ | ⟨first, rest⟩
  · rw [DualQuadTree.insert.eq_def, hp] at h
    exact absurd h (by simp)
  · rw [insert_eq hp] at h
    simp only [Option.some.injEq] at h
    subst h
    refine ⟨?_, ?_, ?_, ?_, ?_, ?_, ?_, ?_⟩
    · intro r hr
      rcases List.mem_cons.1 hr with rfl | hr
      · exact Nat.lt_succ_self _
      · exact Nat.lt_succ_of_lt (h1 r hr)
    · rw [List.map_cons]
      refine List.nodup_cons.2 ⟨?_, h2⟩
      intro hmem
      simp only [List.mem_map] at hmem
      obtain ⟨r, hr, hre⟩ := hmem
      have h0 := h1 r hr
      rw [hre] at h0
      exact absurd h0 (lt_irrefl _)
    · rw [List.map_cons]
      refine List.nodup_cons.2 ⟨?_, h3⟩
      intro hmem
      simp only [List.mem_map] at hmem
      obtain ⟨r, hr, hre⟩ := hmem
      have h0 := h5 r hr
      rw [hre] at h0
      exact absurd h0 (lt_irrefl _)
    · rw [List.map_cons]
      refine List.nodup_cons.2 ⟨?_, h4⟩
      intro hmem
      simp only [List.mem_map] at hmem
      obtain ⟨r, hr, hre⟩ := hmem
      have h0 := h6 r hr
      rw [hre] at h0
      exact absurd h0 (lt_irrefl _)
    · intro r hr
      rcases List.mem_cons.1 hr with rfl | hr
      · exact Nat.lt_succ_self _
      · exact Nat.lt_succ_of_lt (h5 r hr)
    · intro r hr
      rcases List.mem_cons.1 hr with rfl | hr
      · exact Nat.lt_succ_self _
      · exact Nat.lt_succ_of_lt (h6 r hr)
    · rw [List.map_cons, List.map_cons, h7]
    · rw [List.map_cons, List.map_cons, h8]

lemma wf_remove {t t' : DualQuadTree} {id : DqtId} {sg : PathSegment}
    (hwf : WellFormed t) (h : t.remove id = Except.ok (sg, t')) :
    WellFormed t' := by
  obtain ⟨h1, h2, h3, h4, h5, h6, h7, h8⟩ := hwf
  rcases hl : lookupSeg t.idToSegment id with _ | ⟨⟨sg0, sh, eh⟩⟩
  · rw [DualQuadTree.remove.eq_def, hl] at h
    exact absurd h (by simp)
  · rw [remove_eq hl] at h
    simp only [Except.ok.injEq, Prod.mk.injEq] at h
    obtain ⟨hseg, ht⟩ := h
    rw [← ht]
    have hrowmem : (id, sg0, sh, eh) ∈ t.idToSegment := lookupSeg_mem hl
    have hsub : List.Sublist (removeKey t.idToSegment id) t.idToSegment :=
      List.filter_sublist _
    refine ⟨?_, ?_, ?_, ?_, ?_, ?_, ?_, ?_⟩
    · intro r hr
      exact h1 r (List.mem_of_mem_filter hr)
    · exact h2.sublist (hsub.map _)
    · exact h3.sublist (hsub.map _)
    · exact h4.sublist (hsub.map _)
    · intro r hr
      exact h5 r (List.mem_of_mem_filter hr)
    · intro r hr
      exact h6 r (List.mem_of_mem_filter hr)
    · have e1 : (t.starts.entries.filter
          (fun e => decide (e.1 ≠ sh))).map (fun e => (e.1, e.2.1)) =
          (t.starts.entries.map (fun e => (e.1, e.2.1))).filter
            (fun q => decide (q.1 ≠ sh)) :=
        map_filter_comm (fun e => (e.1, e.2.1))
          (fun q => decide (q.1 ≠ sh)) t.starts.entries
      have e2 : (removeKey t.idToSegment id).map (fun r => (r.2.2.1, r.1)) =
          (t.idToSegment.map (fun r => (r.2.2.1, r.1))).filter
            (fun q => decide (q.2 ≠ id)) :=
        map_filter_comm (fun r => (r.2.2.1, r.1))
          (fun q => decide (q.2 ≠ id)) t.idToSegment
      have n1 : ((t.idToSegment.map (fun r => (r.2.2.1, r.1))).map
          Prod.fst).Nodup := by
        rw [map_map_col (fun r : DqtId × PathSegment × ℕ × ℕ => (r.2.2.1, r.1))
          Prod.fst (fun r : DqtId × PathSegment × ℕ × ℕ => r.2.2.1)
          (fun r => rfl) t.idToSegment]
        exact h3
      have n2 : ((t.idToSegment.map (fun r => (r.2.2.1, r.1))).map
          Prod.snd).Nodup := by
        rw [map_map_col (fun r : DqtId × PathSegment × ℕ × ℕ => (r.2.2.1, r.1))
          Prod.snd (fun r : DqtId × PathSegment × ℕ × ℕ => r.1)
          (fun r => rfl) t.idToSegment]
        exact h2
      have hm : (sh, id) ∈ t.idToSegment.map (fun r => (r.2.2.1, r.1)) :=
        List.mem_map_of_mem (fun r => (r.2.2.1, r.1)) hrowmem
      show (t.starts.removeHandle sh).entries.map (fun e => (e.1, e.2.1)) =
        (removeKey t.idToSegment id).map (fun r => (r.2.2.1, r.1))
      simp only [QuadTree.removeHandle]
      rw [e1, e2, h7]
      exact filter_ne_fst_eq_filter_ne_snd n1 n2 hm
    · have e1 : (t.ends.entries.filter
          (fun e => decide (e.1 ≠ eh))).map (fun e => (e.1, e.2.1)) =
          (t.ends.entries.map (fun e => (e.1, e.2.1))).filter
            (fun q => decide (q.1 ≠ eh)) :=
        map_filter_comm (fun e => (e.1, e.2.1))
          (fun q => decide (q.1 ≠ eh)) t.ends.entries
      have e2 : (removeKey t.idToSegment id).map (fun r => (r.2.2.2, r.1)) =
          (t.idToSegment.map (fun r => (r.2.2.2, r.1))).filter
            (fun q => decide (q.2 ≠ id)) :=
        map_filter_comm (fun r => (r.2.2.2, r.1))
          (fun q => decide (q.2 ≠ id)) t.idToSegment
      have n1 : ((t.idToSegment.map (fun r => (r.2.2.2, r.1))).map
          Prod.fst).Nodup := by
        rw [map_map_col (fun r : DqtId × PathSegment × ℕ × ℕ => (r.2.2.2, r.1))
          Prod.fst (fun r : DqtId × PathSegment × ℕ × ℕ => r.2.2.2)
          (fun r => rfl) t.idToSegment]
        exact h4
      have n2 : ((t.idToSegment.map (fun r => (r.2.2.2, r.1))).map
          Prod.snd).Nodup := by
        rw [map_map_col (fun r : DqtId × PathSegment × ℕ × ℕ => (r.2.2.2, r.1))
          Prod.snd (fun r : DqtId × PathSegment × ℕ × ℕ => r.1)
          (fun r => rfl) t.idToSegment]
        exact h2
      have hm : (eh, id) ∈ t.idToSegment.map (fun r => (r.2.2.2, r.1)) :=
        List.mem_map_of_mem (fun r => (r.2.2.2, r.1)) hrowmem
      show (t.ends.removeHandle eh).entries.map (fun e => (e.1, e.2.1)) =
        (removeKey t.idToSegment id).map (fun r => (r.2.2.2, r.1))
      simp only [QuadTree.removeHandle]
      rw [e1, e2, h8]
      exact filter_ne_fst_eq_filter_ne_snd n1 n2 hm

lemma consume_state {t t' : DualQuadTree} {a : DqtId} {res : Option PathSegment}
    (h : t.consume a = some (res, t')) :
    ∃ seg, t.remove a = Except.ok (seg, t') := by
  rw [DualQuadTree.consume] at h
  rcases hr : t.remove a with u | ⟨seg, t2⟩ <;> rw [hr] at h
  · exact absurd h (by simp)
  · simp only [Option.some.injEq, Prod.mk.injEq] at h
    rw [← h.2]
    exact ⟨seg, rfl⟩

lemma consumeRev_state {t t' : DualQuadTree} {b : DqtId}
    {res : Option PathSegment} (h : t.consumeRev b = some (res, t')) :
    ∃ seg, t.remove b = Except.ok (seg, t') := by
  rw [DualQuadTree.consumeRev] at h
  rcases hr : t.remove b with u | ⟨seg, t2⟩ <;> rw [hr] at h
  · exact absurd h (by simp)
  · simp only [Option.some.injEq, Prod.mk.injEq] at h
    rw [← h.2]
    exact ⟨seg, rfl⟩

lemma queryDirection_state {t t' : DualQuadTree} {swap : Bool} {p : Pt}
    {eps : ℚ} {os amb : Bool} {res : Option PathSegment}
    (h : t.queryDirection swap p eps os amb = some (res, t')) :
    t' = t ∨ t' = t.markAmbiguous p ∨
      ∃ a seg, t.remove a = Except.ok (seg, t') := by
  rcases hq : t.queryImpl p eps amb with ⟨s0, e0⟩
  rw [DualQuadTree.queryDirection.eq_def, hq] at h
  cases swap <;> cases os <;> cases amb <;>
    rcases s0 with u1 | (_ | a) <;> rcases e0 with u2 | (_ | b) <;>
    simp only [Bool.false_eq_true, Bool.true_eq_false, if_false, if_true,
      reduceIte] at h <;>
    (first
      | (simp only [Option.some.injEq, Prod.mk.injEq] at h; exact Or.inl h.2.symm)
      | (simp only [Option.some.injEq, Prod.mk.injEq] at h;
         exact Or.inr (Or.inl h.2.symm))
      | exact Or.inr (Or.inr ⟨_, consume_state h⟩)
      | exact Or.inr (Or.inr ⟨_, consumeRev_state h⟩))

lemma wf_markAmbiguous {t : DualQuadTree} (hwf : WellFormed t) (p : Pt) :
    WellFormed (t.markAmbiguous p) := hwf

lemma wf_applyOp {t t' : DualQuadTree} {op : Op} (hwf : WellFormed t)
    (h : applyOp t op = some t') : WellFormed t' := by
  cases op with
  | insert seg => exact wf_insert hwf h
  | remove id =>
    rw [applyOp] at h
    rcases hr : t.remove id with u | ⟨seg, t2⟩ <;> rw [hr] at h
    · exact absurd h (by simp)
    · simp only [Option.some.injEq] at h
      rw [← h]
      exact wf_remove hwf hr
  | pop =>
    rw [applyOp, DualQuadTree.pop.eq_def] at h
    rcases hm : t.idToSegment with _ | ⟨⟨id0, v0⟩, rest⟩ <;> rw [hm] at h
    · simp only [Option.some.injEq] at h
      rw [← h]
      exact hwf
    · simp only [] at h
      rcases hr : t.remove id0 with u | ⟨seg, t2⟩ <;> rw [hr] at h
      · exact absurd h (by simp)
      · simp only [Option.some.injEq] at h
        rw [← h]
        exact wf_remove hwf hr
  | queryForward q eps os amb =>
    rw [applyOp, DualQuadTree.queryForward] at h
    rcases hd : t.queryDirection false q eps os amb with _ | ⟨r, t2⟩ <;>
      rw [hd] at h
    · exact absurd h (by simp)
    · simp only [Option.map_some', Option.some.injEq] at h
      rw [← h]
      rcases queryDirection_state hd with h2 | h2 | ⟨a, seg, hr⟩
      · rw [h2]; exact hwf
      · rw [h2]; exact wf_markAmbiguous hwf q
      · exact wf_remove hwf hr
  | queryBackward q eps os amb =>
    rw [applyOp, DualQuadTree.queryBackward] at h
    rcases hd : t.queryDirection true q eps os amb with _ | ⟨r, t2⟩ <;>
      rw [hd] at h
    · exact absurd h (by simp)
    · simp only [Option.map_some', Option.some.injEq] at h
      rw [← h]
      rcases queryDirection_state hd with h2 | h2 | ⟨a, seg, hr⟩
      · rw [h2]; exact hwf
      · rw [h2]; exact wf_markAmbiguous hwf q
      · exact wf_remove hwf hr

lemma wf_reachable {t : DualQuadTree} (h : Reachable t) : WellFormed t := by
  induction h with
  | new => exact wf_new
  | step _ ha ih => exact wf_applyOp ih ha

lemma filter_snd_eq_length_zero {α β : Type} [DecidableEq β]
    {l : List (α × β)} {b : β} (h : b ∉ l.map Prod.snd) :
    (l.filter (fun q => decide (q.2 = b))).length = 0 := by
  rw [List.length_eq_zero]
  refine List.filter_eq_nil_iff.2 ?_
  intro q hq
  simp only [decide_eq_true_eq]
  intro hqb
  exact h (hqb ▸ List.mem_map_of_mem Prod.snd hq)

lemma not_mem_removeKey_keys (l : List (DqtId × PathSegment × ℕ × ℕ))
    (id : DqtId) : id ∉ (removeKey l id).map (fun r => r.1) := by
  intro h
  simp only [removeKey, List.mem_map, List.mem_filter,
    decide_eq_true_eq] at h
  obtain ⟨r, ⟨_, hne⟩, hre⟩ := h
  exact hne hre

lemma startsCount_eq {t : DualQuadTree}
    (h7 : t.starts.entries.map (fun e => (e.1, e.2.1)) =
      t.idToSegment.map (fun r => (r.2.2.1, r.1))) (id : DqtId) :
    startsCount t id =
      ((t.idToSegment.map (fun r => (r.2.2.1, r.1))).filter
        (fun q => decide (q.2 = id))).length := by
  rw [startsCount]
  exact (filter_length_map (fun e : ℕ × DqtId × Box => (e.1, e.2.1))
    (fun q => decide (q.2 = id)) t.starts.entries).trans (by rw [h7])

lemma endsCount_eq {t : DualQuadTree}
    (h8 : t.ends.entries.map (fun e => (e.1, e.2.1)) =
      t.idToSegment.map (fun r => (r.2.2.2, r.1))) (id : DqtId) :
    endsCount t id =
      ((t.idToSegment.map (fun r => (r.2.2.2, r.1))).filter
        (fun q => decide (q.2 = id))).length := by
  rw [endsCount]
  exact (filter_length_map (fun e : ℕ × DqtId × Box => (e.1, e.2.1))
    (fun q => decide (q.2 = id)) t.ends.entries).trans (by rw [h8])

lemma pairs_snd_nodup_start {t : DualQuadTree}
    (h2 : (t.idToSegment.map (fun r => r.1)).Nodup) :
    ((t.idToSegment.map (fun r => (r.2.2.1, r.1))).map Prod.snd).Nodup := by
  rw [map_map_col (fun r : DqtId × PathSegment × ℕ × ℕ => (r.2.2.1, r.1))
    Prod.snd (fun r : DqtId × PathSegment × ℕ × ℕ => r.1) (fun r => rfl)
    t.idToSegment]
  exact h2

lemma pairs_snd_nodup_end {t : DualQuadTree}
    (h2 : (t.idToSegment.map (fun r => r.1)).Nodup) :
    ((t.idToSegment.map (fun r => (r.2.2.2, r.1))).map Prod.snd).Nodup := by
  rw [map_map_col (fun r : DqtId × PathSegment × ℕ × ℕ => (r.2.2.2, r.1))
    Prod.snd (fun r : DqtId × PathSegment × ℕ × ℕ => r.1) (fun r => rfl)
    t.idToSegment]
  exact h2

lemma pairs_snd_mem_start {l : List (DqtId × PathSegment × ℕ × ℕ)}
    {id : DqtId} (h : id ∈ l.map (fun r => r.1)) :
    id ∈ (l.map (fun r => (r.2.2.1, r.1))).map Prod.snd := by
  rw [map_map_col (fun r : DqtId × PathSegment × ℕ × ℕ => (r.2.2.1, r.1))
    Prod.snd (fun r : DqtId × PathSegment × ℕ × ℕ => r.1) (fun r => rfl) l]
  exact h

lemma pairs_snd_mem_end {l : List (DqtId × PathSegment × ℕ × ℕ)}
    {id : DqtId} (h : id ∈ l.map (fun r => r.1)) :
    id ∈ (l.map (fun r => (r.2.2.2, r.1))).map Prod.snd := by
  rw [map_map_col (fun r : DqtId × PathSegment × ℕ × ℕ => (r.2.2.2, r.1))
    Prod.snd (fun r : DqtId × PathSegment × ℕ × ℕ => r.1) (fun r => rfl) l]
  exact h

lemma pairs_snd_not_mem_start {l : List (DqtId × PathSegment × ℕ × ℕ)}
    {id : DqtId} (h : id ∉ l.map (fun r => r.1)) :
    id ∉ (l.map (fun r => (r.2.2.1, r.1))).map Prod.snd := by
  rw [map_map_col (fun r : DqtId × PathSegment × ℕ × ℕ => (r.2.2.1, r.1))
    Prod.snd (fun r : DqtId × PathSegment × ℕ × ℕ => r.1) (fun r => rfl) l]
  exact h

lemma pairs_snd_not_mem_end {l : List (DqtId × PathSegment × ℕ × ℕ)}
    {id : DqtId} (h : id ∉ l.map (fun r => r.1)) :
    id ∉ (l.map (fun r => (r.2.2.2, r.1))).map Prod.snd := by
  rw [map_map_col (fun r : DqtId × PathSegment × ℕ × ℕ => (r.2.2.2, r.1))
    Prod.snd (fun r : DqtId × PathSegment × ℕ × ℕ => r.1) (fun r => rfl) l]
  exact h

/-- Claim C8: at every reachable state, every identifier present in the
segment map has exactly one live entry in the `starts` index and exactly
one in the `ends` index; a successful removal (the single removal path
used by `remove`, `pop` and the consuming matches) eliminates the map
entry and both index entries together. -/
theorem c8_invariant (t : DualQuadTree) (hr : Reachable t) :
    (∀ r ∈ t.idToSegment, startsCount t r.1 = 1 ∧ endsCount t r.1 = 1) ∧
    (∀ (id : DqtId) (seg : PathSegment) (t' : DualQuadTree),
      t.remove id = Except.ok (seg, t') →
      lookupSeg t'.idToSegment id = none ∧
      startsCount t' id = 0 ∧ endsCount t' id = 0) := by
  obtain ⟨h1, h2, h3, h4, h5, h6, h7, h8⟩ := wf_reachable hr
  constructor
  · intro r hrm
    constructor
    · rw [startsCount_eq h7 r.1]
      exact filter_snd_eq_length_one (pairs_snd_nodup_start h2)
        (pairs_snd_mem_start (List.mem_map_of_mem (fun x => x.1) hrm))
    · rw [endsCount_eq h8 r.1]
      exact filter_snd_eq_length_one (pairs_snd_nodup_end h2)
        (pairs_snd_mem_end (List.mem_map_of_mem (fun x => x.1) hrm))
  · intro id seg t' hrem
    have hwf' := wf_remove ⟨h1, h2, h3, h4, h5, h6, h7, h8⟩ hrem
    obtain ⟨g1, g2, g3, g4, g5, g6, g7, g8⟩ := hwf'
    rcases hl : lookupSeg t.idToSegment id with _ | ⟨⟨sg0, sh, eh⟩⟩
    · rw [DualQuadTree.remove.eq_def, hl] at hrem
      exact absurd hrem (by simp)
    · rw [remove_eq hl] at hrem
      simp only [Except.ok.injEq, Prod.mk.injEq] at hrem
      obtain ⟨hseg, ht⟩ := hrem
      have hkeys : id ∉ t'.idToSegment.map (fun x => x.1) := by
        rw [← ht]
        exact not_mem_removeKey_keys t.idToSegment id
      refine ⟨?_, ?_, ?_⟩
      · rw [← ht]
        exact lookupSeg_removeKey_self _ _
      · rw [startsCount_eq g7 id]
        exact filter_snd_eq_length_zero (pairs_snd_not_mem_start hkeys)
      · rw [endsCount_eq g8 id]
        exact filter_snd_eq_length_zero (pairs_snd_not_mem_end hkeys)

/-- Claim C8, witness: in the one-segment reachable state `c1State`,
identifier 0 has exactly one `starts` entry and one `ends` entry. -/
theorem c8_witness :
    startsCount c1State ⟨0⟩ = 1 ∧ endsCount c1State ⟨0⟩ = 1 := by
  have hreach : Reachable c1State :=
    Reachable.step Reachable.new
      (show applyOp DualQuadTree.new (Op.insert exA) = some c1State by decide)
  exact (c8_invariant c1State hreach).1 (⟨0⟩, exA, 0, 0) (by decide)

lemma consumeRev_of_lookup {t : DualQuadTree} {b : DqtId} {seg : PathSegment}
    {sh eh : ℕ} (hlook : lookupSeg t.idToSegment b = some (seg, sh, eh)) :
    t.consumeRev b = some (some (reverseAndReturn seg), { t with
      idToSegment := removeKey t.idToSegment b,
      starts := t.starts.removeHandle sh,
      ends := t.ends.removeHandle eh }) := by
  rw [DualQuadTree.consumeRev.eq_def, DualQuadTree.remove.eq_def, hlook]

lemma queryLoop_ok_mem {amb : Bool} : ∀ {l : List DqtId} {out : Option DqtId}
    {a : DqtId}, queryLoop amb l out = Except.ok (some a) →
    a ∈ l ∨ out = some a
  | [], out, a, h => by
    rw [queryLoop] at h
    simp only [Except.ok.injEq] at h
    exact Or.inr h
  | id :: rest, out, a, h => by
    rw [queryLoop] at h
    by_cases hamb : amb = true
    · rw [if_pos hamb] at h
      simp only [Except.ok.injEq, Option.some.injEq] at h
      rw [← h]
      exact Or.inl (List.mem_cons_self _ _)
    · rw [if_neg hamb] at h
      by_cases hout : out.isSome = true
      · rw [if_pos hout] at h
        exact absurd h (by simp)
      · rw [if_neg hout] at h
        rcases queryLoop_ok_mem h with h2 | h2
        · exact Or.inl (List.mem_cons_of_mem _ h2)
        · simp only [Option.some.injEq] at h2
          rw [← h2]
          exact Or.inl (List.mem_cons_self _ _)

lemma key_mem_of_query {qt : QuadTree DqtId} {box : Box} {a : DqtId}
    (h : a ∈ (qt.query box).map (fun e => e.2.1)) :
    a ∈ (qt.entries.map (fun e => (e.1, e.2.1))).map Prod.snd := by
  simp only [List.mem_map] at h
  obtain ⟨e, he, hea⟩ := h
  have he2 : e ∈ qt.entries := List.mem_of_mem_filter he
  have : (e.1, e.2.1) ∈ qt.entries.map (fun e => (e.1, e.2.1)) :=
    List.mem_map_of_mem _ he2
  have h3 : (e.1, e.2.1).2 ∈ (qt.entries.map
      (fun e => (e.1, e.2.1))).map Prod.snd :=
    List.mem_map_of_mem Prod.snd this
  rw [hea] at h3
  exact h3

lemma rows_key_of_pairs_start {t : DualQuadTree} {a : DqtId}
    (h7 : t.starts.entries.map (fun e => (e.1, e.2.1)) =
      t.idToSegment.map (fun r => (r.2.2.1, r.1)))
    (h : a ∈ (t.starts.entries.map (fun e => (e.1, e.2.1))).map Prod.snd) :
    a ∈ t.idToSegment.map (fun r => r.1) := by
  rw [h7] at h
  rw [map_map_col (fun r : DqtId × PathSegment × ℕ × ℕ => (r.2.2.1, r.1))
    Prod.snd (fun r : DqtId × PathSegment × ℕ × ℕ => r.1) (fun r => rfl)
    t.idToSegment] at h
  exact h

lemma rows_key_of_pairs_end {t : DualQuadTree} {a : DqtId}
    (h8 : t.ends.entries.map (fun e => (e.1, e.2.1)) =
      t.idToSegment.map (fun r => (r.2.2.2, r.1)))
    (h : a ∈ (t.ends.entries.map (fun e => (e.1, e.2.1))).map Prod.snd) :
    a ∈ t.idToSegment.map (fun r => r.1) := by
  rw [h8] at h
  rw [map_map_col (fun r : DqtId × PathSegment × ℕ × ℕ => (r.2.2.2, r.1))
    Prod.snd (fun r : DqtId × PathSegment × ℕ × ℕ => r.1) (fun r => rfl)
    t.idToSegment] at h
  exact h

lemma queryImpl_starts_lookup {t : DualQuadTree} {p : Pt} {eps : ℚ}
    {amb : Bool} {a : DqtId} (hwf : WellFormed t)
    (hq : (t.queryImpl p eps amb).1 = Except.ok (some a)) :
    ∃ w, lookupSeg t.idToSegment a = some w := by
  obtain ⟨h1, h2, h3, h4, h5, h6, h7, h8⟩ := hwf
  rw [DualQuadTree.queryImpl] at hq
  split at hq
  · exact absurd hq (by simp)
  · simp only [] at hq
    rcases queryLoop_ok_mem hq with hm | hm
    · exact lookupSeg_of_mem_keys
        (rows_key_of_pairs_start h7 (key_mem_of_query hm))
    · exact absurd hm (by simp)

lemma queryImpl_ends_lookup {t : DualQuadTree} {p : Pt} {eps : ℚ}
    {amb : Bool} {b : DqtId} (hwf : WellFormed t)
    (hq : (t.queryImpl p eps amb).2 = Except.ok (some b)) :
    ∃ w, lookupSeg t.idToSegment b = some w := by
  obtain ⟨h1, h2, h3, h4, h5, h6, h7, h8⟩ := hwf
  rw [DualQuadTree.queryImpl] at hq
  split at hq
  · exact absurd hq (by simp)
  · simp only [] at hq
    rcases queryLoop_ok_mem hq with hm | hm
    · exact lookupSeg_of_mem_keys
        (rows_key_of_pairs_end h8 (key_mem_of_query hm))
    · exact absurd hm (by simp)

lemma consume_total {t : DualQuadTree} {a : DqtId}
    (h : ∃ w, lookupSeg t.idToSegment a = some w) :
    ∃ r, t.consume a = some r := by
  obtain ⟨⟨sg, sh, eh⟩, hl⟩ := h
  exact ⟨_, consume_of_lookup hl⟩

lemma consumeRev_total {t : DualQuadTree} {b : DqtId}
    (h : ∃ w, lookupSeg t.idToSegment b = some w) :
    ∃ r, t.consumeRev b = some r := by
  obtain ⟨⟨sg, sh, eh⟩, hl⟩ := h
  exact ⟨_, consumeRev_of_lookup hl⟩

lemma queryDirection_total {t : DualQuadTree} (hwf : WellFormed t)
    (swap : Bool) (p : Pt) (eps : ℚ) (os amb : Bool) :
    ∃ r, t.queryDirection swap p eps os amb = some r := by
  rcases hq : t.queryImpl p eps amb with ⟨s0, e0⟩
  have hs : ∀ a, s0 = Except.ok (some a) →
      ∃ w, lookupSeg t.idToSegment a = some w := by
    intro a ha
    refine @queryImpl_starts_lookup t p eps amb a hwf ?_
    rw [hq]
    exact ha
  have he : ∀ b, e0 = Except.ok (some b) →
      ∃ w, lookupSeg t.idToSegment b = some w := by
    intro b hb
    refine @queryImpl_ends_lookup t p eps amb b hwf ?_
    rw [hq]
    exact hb
  rw [DualQuadTree.queryDirection.eq_def, hq]
  cases swap <;> cases os <;> cases amb <;>
    rcases s0 with u1 | (_ | a) <;> rcases e0 with u2 | (_ | b) <;>
    simp only [Bool.false_eq_true, Bool.true_eq_false, if_false, if_true,
      reduceIte] <;>
    (first
      | exact ⟨_, rfl⟩
      | exact consume_total (hs _ rfl)
      | exact consume_total (he _ rfl)
      | exact consumeRev_total (hs _ rfl)
      | exact consumeRev_total (he _ rfl))

/-- Claim C6, counterexample: `remove` is not total — on the empty tree,
removing identifier 5 aborts (the unwrap panic, `Except.error ()` in the
model) instead of returning normally. -/
theorem c6_counterexample :
    DualQuadTree.new.remove ⟨5⟩ = Except.error () := by decide

/-- Claim C6, amended: every operation is a pure function of the current
index state, and all are total — `pop` and `insert` (on the nonempty
point lists every constructed segment has) on every state, the
directional queries on every well-formed state — except `remove`, which
returns normally exactly on identifiers present in the map and aborts on
absent ones. -/
theorem c6_amended :
    (∀ t : DualQuadTree, ∃ r, t.pop = some r) ∧
    (∀ (t : DualQuadTree) (seg : PathSegment), seg.path ≠ [] →
      ∃ t', t.insert seg = some t') ∧
    (∀ (t : DualQuadTree) (id : DqtId) (v : PathSegment × ℕ × ℕ),
      lookupSeg t.idToSegment id = some v → ∃ r, t.remove id = Except.ok r) ∧
    (∀ (t : DualQuadTree) (id : DqtId),
      lookupSeg t.idToSegment id = none → t.remove id = Except.error ()) ∧
    (∀ (t : DualQuadTree) (p : Pt) (eps : ℚ) (os amb : Bool), WellFormed t →
      (∃ r, t.queryForward p eps os amb = some r) ∧
      (∃ r, t.queryBackward p eps os amb = some r)) := by
  refine ⟨?_, ?_, ?_, ?_, ?_⟩
  · intro t
    rcases hm : t.idToSegment with _ | ⟨⟨id0, v0⟩, rest⟩
    · exact ⟨none, by rw [DualQuadTree.pop.eq_def, hm]⟩
    · rcases v0 with ⟨sg, sh, eh⟩
      have hl : lookupSeg t.idToSegment id0 = some (sg, sh, eh) := by
        rw [hm]
        exact lookupSeg_head _ _ _
      rcases hr2 : t.remove id0 with u | r
      · rw [DualQuadTree.remove.eq_def, hl] at hr2
        exact absurd hr2 (by simp)
      · refine ⟨some r, ?_⟩
        rw [DualQuadTree.pop.eq_def, hm]
        simp only []
        rw [hr2]
  · intro t seg hne
    rcases hp : seg.path with _ | ⟨first, rest⟩
    · exact absurd hp hne
    · exact ⟨_, insert_eq hp⟩
  · intro t id v hl
    rcases v with ⟨sg, sh, eh⟩
    exact ⟨_, remove_eq hl⟩
  · intro t id hl
    rw [DualQuadTree.remove.eq_def, hl]
  · intro t p eps os amb hwf
    constructor
    · obtain ⟨r, hr⟩ := queryDirection_total hwf false p eps os amb
      exact ⟨r, by rw [DualQuadTree.queryForward]; exact hr⟩
    · obtain ⟨r, hr⟩ := queryDirection_total hwf true p eps os amb
      exact ⟨r, by rw [DualQuadTree.queryBackward]; exact hr⟩

/-- Claim C6, witness: the amended totality statements at concrete
inputs — a successful pop, insert, present-identifier removal and two
queries on the one-segment tree, and the abort on an absent
identifier. -/
theorem c6_amended_witness :
    (c1State.pop).isSome = true ∧
    (c1State.insert exB).isSome = true ∧
    (c1State.remove ⟨0⟩).toOption.isSome = true ∧
    c1State.remove ⟨7⟩ = Except.error () ∧
    (c1State.queryForward ⟨5, 5⟩ 1 true false).isSome = true ∧
    (c1State.queryBackward ⟨5, 5⟩ 1 false true).isSome = true := by
  obtain ⟨hpop, hins, hrok, hrerr, hq⟩ := c6_amended
  obtain ⟨r1, e1⟩ := hpop c1State
  obtain ⟨r2, e2⟩ := hins c1State exB (by decide)
  obtain ⟨r3, e3⟩ := hrok c1State ⟨0⟩ (exA, 0, 0) (by decide)
  have e4 := hrerr c1State ⟨7⟩ (by decide)
  have hwf1 : WellFormed c1State :=
    wf_applyOp wf_new
      (show applyOp DualQuadTree.new (Op.insert exA) = some c1State by decide)
  obtain ⟨h5a, h5b⟩ := hq c1State ⟨5, 5⟩ 1 true false hwf1
  obtain ⟨h6a, h6b⟩ := hq c1State ⟨5, 5⟩ 1 false true hwf1
  obtain ⟨r5, e5⟩ := h5a
  obtain ⟨r6, e6⟩ := h6b
  refine ⟨?_, ?_, ?_, e4, ?_, ?_⟩
  · rw [e1]; rfl
  · rw [e2]; rfl
  · rw [e3]; rfl
  · rw [e5]; rfl
  · rw [e6]; rfl

/-- Claim C9: from any well-formed state, inserting a segment and then
removing the identifier just assigned (the counter value at insertion
time) returns that very segment — same point sequence — and restores the
sizes of the segment map, the `starts` index and the `ends` index to
their values before the insert. -/
theorem c9_insert_remove (t : DualQuadTree) (seg : PathSegment)
    (t' : DualQuadTree) (hwf : WellFormed t) (hins : t.insert seg = some t') :
    ∃ t'', t'.remove ⟨t.id⟩ = Except.ok (seg, t'') ∧
      t''.idToSegment.length = t.idToSegment.length ∧
      t''.starts.entries.length = t.starts.entries.length ∧
      t''.ends.entries.length = t.ends.entries.length := by
  obtain ⟨h1, h2, h3, h4, h5, h6, h7, h8⟩ := hwf
  rcases hp : seg.path with _ | ⟨first, rest⟩
  · rw [DualQuadTree.insert.eq_def, hp] at hins
    exact absurd hins (by simp)
  · rw [insert_eq hp] at hins
    simp only [Option.some.injEq] at hins
    have hl : lookupSeg t'.idToSegment ⟨t.id⟩ =
        some (seg, t.starts.nextHandle, t.ends.nextHandle) := by
      rw [← hins]
      exact lookupSeg_head _ _ _
    refine ⟨_, remove_eq hl, ?_, ?_, ?_⟩
    · show (removeKey t'.idToSegment ⟨t.id⟩).length = t.idToSegment.length
      have hkey : removeKey t'.idToSegment ⟨t.id⟩ = t.idToSegment := by
        rw [← hins, removeKey, List.filter_cons, if_neg (by simp)]
        refine List.filter_eq_self.2 ?_
        intro r hr
        simp only [decide_eq_true_eq]
        intro hq
        have h0 := h1 r hr
        rw [hq] at h0
        exact absurd h0 (lt_irrefl _)
      rw [hkey]
    · show ((t'.starts.removeHandle t.starts.nextHandle).entries).length =
        t.starts.entries.length
      have hb : ∀ e ∈ t.starts.entries, e.1 < t.starts.nextHandle := by
        intro e he
        have hpair : (e.1, e.2.1) ∈ t.starts.entries.map
            (fun x => (x.1, x.2.1)) := List.mem_map_of_mem _ he
        rw [h7] at hpair
        simp only [List.mem_map] at hpair
        obtain ⟨row, hrow, heq⟩ := hpair
        have h0 := h5 row hrow
        have h9 : row.2.2.1 = e.1 := congrArg Prod.fst heq
        rw [← h9]
        exact h0
      have hent : (t'.starts.removeHandle t.starts.nextHandle).entries =
          t.starts.entries := by
        rw [← hins, QuadTree.removeHandle]
        show ((t.starts.nextHandle, DqtId.mk t.id, first.aabb) ::
          t.starts.entries).filter
            (fun e => decide (e.1 ≠ t.starts.nextHandle)) = t.starts.entries
        rw [List.filter_cons, if_neg (by simp)]
        refine List.filter_eq_self.2 ?_
        intro e he
        simp only [decide_eq_true_eq]
        exact Nat.ne_of_lt (hb e he)
      rw [hent]
    · show ((t'.ends.removeHandle t.ends.nextHandle).entries).length =
        t.ends.entries.length
      have hb : ∀ e ∈ t.ends.entries, e.1 < t.ends.nextHandle := by
        intro e he
        have hpair : (e.1, e.2.1) ∈ t.ends.entries.map
            (fun x => (x.1, x.2.1)) := List.mem_map_of_mem _ he
        rw [h8] at hpair
        simp only [List.mem_map] at hpair
        obtain ⟨row, hrow, heq⟩ := hpair
        have h0 := h6 row hrow
        have h9 : row.2.2.2 = e.1 := congrArg Prod.fst heq
        rw [← h9]
        exact h0
      have hent : (t'.ends.removeHandle t.ends.nextHandle).entries =
          t.ends.entries := by
        rw [← hins, QuadTree.removeHandle]
        show ((t.ends.nextHandle, DqtId.mk t.id,
          ((first :: rest).getLast (List.cons_ne_nil _ _)).aabb) ::
          t.ends.entries).filter
            (fun e => decide (e.1 ≠ t.ends.nextHandle)) = t.ends.entries
        rw [List.filter_cons, if_neg (by simp)]
        refine List.filter_eq_self.2 ?_
        intro e he
        simp only [decide_eq_true_eq]
        exact Nat.ne_of_lt (hb e he)
      rw [hent]

/-- Claim C9, witness: inserting `exA` into the empty tree and removing
identifier 0 returns `exA` and leaves all three sizes at 0. -/
theorem c9_witness :
    removeSummary (c1State.remove ⟨0⟩) = some (exA, 0, 0, 0) := by
  obtain ⟨t'', he, hm, hs, hn⟩ := c9_insert_remove DualQuadTree.new exA
    c1State wf_new (by decide)
  have he2 : c1State.remove ⟨0⟩ = Except.ok (exA, t'') := he
  rw [removeSummary, he2]
  simp only [Except.toOption, Option.map_some']
  rw [hm, hs, hn]
  rfl

/-- Claim C7: constructing a segment whose first and last input points lie
within `epsilon` of each other (the spec-modelled containment test, since
`util.rs` is outside the provided sources) yields `closed = true` and a
stored point count exactly one less than the input count; when the last
input point lies outside the epsilon box of the first, the construction
yields `closed = false` and a stored point count equal to the input
count. -/
theorem c7_closed_detection (first second : Pt) (rest : List Pt)
    (epsilon : ℚ) :
    (closeEnough first
        ((first :: second :: rest).getLast (List.cons_ne_nil _ _))
        epsilon = true →
      (PathSegment.new (first :: second :: rest) epsilon).map
        PathSegment.closed = some true ∧
      storedLen (PathSegment.new (first :: second :: rest) epsilon) =
        some ((first :: second :: rest).length - 1)) ∧
    (closeEnough first
        ((first :: second :: rest).getLast (List.cons_ne_nil _ _))
        epsilon = false →
      (PathSegment.new (first :: second :: rest) epsilon).map
        PathSegment.closed = some false ∧
      storedLen (PathSegment.new (first :: second :: rest) epsilon) =
        some (first :: second :: rest).length) := by
  constructor <;> intro hc <;>
    rw [PathSegment.new.eq_def] <;>
    simp only [] <;>
    rw [hc] <;>
    constructor <;>
    simp [storedLen, List.length_dropLast]

/-- Claim C7, witness: a 3-point input returning to its start stores 2
points and is closed; a 2-point open input stores both points and is
open. -/
theorem c7_witness :
    (PathSegment.new [⟨0, 0⟩, ⟨3, 0⟩, ⟨0, 0⟩] 1).map PathSegment.closed =
      some true ∧
    storedLen (PathSegment.new [⟨0, 0⟩, ⟨3, 0⟩, ⟨0, 0⟩] 1) = some 2 ∧
    (PathSegment.new [⟨0, 0⟩, ⟨3, 0⟩] 1).map PathSegment.closed =
      some false ∧
    storedLen (PathSegment.new [⟨0, 0⟩, ⟨3, 0⟩] 1) = some 2 := by
  have h1 := (c7_closed_detection ⟨0, 0⟩ ⟨3, 0⟩ [⟨0, 0⟩] 1).1 (by decide)
  have h2 := (c7_closed_detection ⟨0, 0⟩ ⟨3, 0⟩ [] 1).2 (by decide)
  exact ⟨h1.1, h1.2, h2.1, h2.2⟩
